import Mathlib

/-!
# Verification of `contacts_cif.py` (AF3 ligand screening)

Shallow embedding of the contact-detection pipeline of `src/contacts_cif.py`.

Modelling conventions:
* Coordinates are exact rationals (`ℚ`).  The source's `dist` computes the
  Euclidean distance `math.sqrt(dx*dx + dy*dy + dz*dz)`; since `Real.sqrt` is
  strictly monotone on nonnegative inputs, every comparison the source makes
  between two distances is equivalent to the same comparison between their
  squares.  The pipeline therefore carries the exact *squared* distance
  (`dist2`, a rational) through the accumulation and sorting logic, and the
  Euclidean distance itself is recovered as `dist = Real.sqrt ∘ dist2` in the
  statements and in the presentation layer.
* The Biopython structure model (`Structure → Model → Chain → Residue → Atom`)
  is embedded as nested lists.  The external classifier `is_aa(residue,
  standard=...)` is embedded as two boolean attributes of a residue (its answer
  for `standard=True` and for `standard=False`).
* `NeighborSearch(atoms).search(center, radius)` (external, exact radius
  semantics: it returns exactly the indexed atoms within `radius` of `center`)
  is embedded as `nsSearch`, a filter on the squared distance.
* `print` diagnostics are collected into a list of strings returned alongside
  the reports.
-/

namespace ContactsCif

/-- An atom: a 3-D coordinate (source: `atom.get_coord()`). -/
structure Atom where
  x : ℚ
  y : ℚ
  z : ℚ
deriving DecidableEq, Repr

/-- Squared Euclidean distance, the exact rational carrier of the source's
`dist` (source lines 12–16 compute `sqrt` of exactly this quantity). -/
def dist2 (a b : Atom) : ℚ :=
  (a.x - b.x) * (a.x - b.x) + (a.y - b.y) * (a.y - b.y) + (a.z - b.z) * (a.z - b.z)

/-- Source `dist(a, b)`: the Euclidean distance
`math.sqrt(dx*dx + dy*dy + dz*dz)`. -/
noncomputable def dist (a b : Atom) : ℝ :=
  Real.sqrt (dist2 a b)

/-- A residue of the parsed structure.  `hetflag` is `residue.get_id()[0]`
(`' '` for standard residues, `'H_…'` for heteroatoms, `'W'` for waters);
`aa_standard` and `aa_extended` record the answers of the external Biopython
classifier `is_aa(residue, standard=True)` resp. `is_aa(residue,
standard=False)`. -/
structure Residue where
  resname : String
  resseq : Int
  icode : String
  hetflag : String
  aa_standard : Bool
  aa_extended : Bool
  atoms : List Atom
deriving DecidableEq, Repr

/-- External Biopython `is_aa(residue, standard=standard)`. -/
def is_aa (r : Residue) (standard : Bool) : Bool :=
  if standard then r.aa_standard else r.aa_extended

/-- A chain: identifier plus its residues (source: `chain.id`, iteration). -/
structure Chain where
  id : String
  residues : List Residue
deriving DecidableEq, Repr

/-- A model of the structure (source: iteration over `model`). -/
structure SModel where
  chains : List Chain
deriving DecidableEq, Repr

/-- The parsed structure (output of the external `MMCIFParser`). -/
structure PStructure where
  models : List SModel
deriving DecidableEq, Repr

/-- The stable residue identity of source `residue_key`:
`(resname, chain_id, resseq, icode)`. -/
structure ResidueKey where
  resname : String
  chain : String
  resseq : Int
  icode : String
deriving DecidableEq, Repr

/-- Python `icode or ""`: an empty insertion-code string is replaced by `""`
(a one-character string such as `" "` is truthy and kept as is). -/
def pyOr (s : String) : String :=
  if s = "" then "" else s

/-- Python `str.strip()` (source line 50): whitespace removed from both
ends. -/
def pyStrip (s : String) : String :=
  ⟨((s.data.dropWhile Char.isWhitespace).reverse.dropWhile Char.isWhitespace).reverse⟩

/-- Python `str.startswith(pre)` (source line 59). -/
def pyStartsWith (s pre : String) : Bool :=
  pre.data.isPrefixOf s.data

/-- Source `residue_key(residue)` (lines 19–24): the chain id comes from the
residue's parent chain, the resname is taken *unstripped*, and the icode is
passed through `icode or ""`. -/
def residue_key (chainId : String) (r : Residue) : ResidueKey :=
  { resname := r.resname, chain := chainId, resseq := r.resseq, icode := pyOr r.icode }

/-- A flattened candidate polymer atom: the atom together with the
back-references (`patom.get_parent()` and that residue's parent chain id)
the detector uses. -/
structure PAtom where
  atom : Atom
  chainId : String
  pres : Residue
deriving DecidableEq, Repr

/-- All residues of the structure paired with their chain id, in traversal
order (source lines 47–49: `for model in structure: for chain in model:
for residue in chain`). -/
def allResidues (s : PStructure) : List (String × Residue) :=
  s.models.flatMap fun m => m.chains.flatMap fun c => c.residues.map fun r => (c.id, r)

/-- One iteration of the classification loop (source lines 50–67): a residue
whose stripped resname equals the ligand name is collected as a ligand
instance; otherwise a water (`hetflag` starting with `"W"`) is skipped (the
`if include_waters: pass` branch is a no-op either way); otherwise an
amino-acid residue contributes all its atoms to `protein_atoms`. -/
def classifyStep (ligand_name : String) (include_waters standard_aa_only : Bool)
    (acc : List (String × Residue) × List PAtom) (cr : String × Residue) :
    List (String × Residue) × List PAtom :=
  let resname := pyStrip cr.2.resname
  let hetflag := cr.2.hetflag
  if resname = ligand_name then
    (acc.1 ++ [cr], acc.2)
  else if pyStartsWith hetflag "W" then
    -- source: `if include_waters: pass` — kept for completeness, then `continue`
    if include_waters then acc else acc
  else if is_aa cr.2 standard_aa_only then
    (acc.1, acc.2 ++ cr.2.atoms.map fun a => ⟨a, cr.1, cr.2⟩)
  else
    acc

/-- The classification pass of `find_contacts_cif` (source lines 44–67),
producing `(ligand_residues, protein_atoms)`. -/
def classify (s : PStructure) (ligand_name : String)
    (include_waters standard_aa_only : Bool) :
    List (String × Residue) × List PAtom :=
  (allResidues s).foldl (classifyStep ligand_name include_waters standard_aa_only) ([], [])

/-- External `NeighborSearch(protein_atoms).search(center, radius)` (source
lines 77 and 93): returns exactly the indexed atoms whose Euclidean distance
to `center` is at most `radius`, decided here on squared distances. -/
def nsSearch (protein_atoms : List PAtom) (center : Atom) (radius : ℚ) : List PAtom :=
  protein_atoms.filter fun pa => decide (dist2 pa.atom center ≤ radius * radius)

/-- The source's per-ligand accumulator
`contacts_min = defaultdict(lambda: float("inf"))` is embedded as an
association list in which an absent key stands for the default `inf`.
`updateMin m key d` is the effect of
`if d < contacts_min[key]: contacts_min[key] = d` (source lines 102–103):
a fresh key is first read as `inf` and hence immediately set to `d`
(appended, preserving Python's dict insertion order); an existing key keeps
the smaller of the stored value and `d`. -/
def updateMin : List (ResidueKey × ℚ) → ResidueKey → ℚ → List (ResidueKey × ℚ)
  | [], key, d => [(key, d)]
  | (k, v) :: rest, key, d =>
    if k = key then
      (if d < v then (k, d) else (k, v)) :: rest
    else
      (k, v) :: updateMin rest key d

/-- The per-ligand-atom inner loop body (source lines 94–103): skip candidates
whose parent residue fails the defensive `is_aa(pres, standard=False)`
re-check, otherwise fold the exact (squared) distance into the
minimum-distance map under the residue's key.  Note the source computes the
exact distance but performs no comparison of it against the cutoff. -/
def neighborStep (latom : Atom) (m : List (ResidueKey × ℚ)) (patom : PAtom) :
    List (ResidueKey × ℚ) :=
  if is_aa patom.pres false then
    updateMin m (residue_key patom.chainId patom.pres) (dist2 latom patom.atom)
  else
    m

/-- The per-ligand-instance minimum-distance map (source lines 88–103),
parameterised over the radius-query function so that both the actual
`NeighborSearch` and hypothetical conservative indexes can be plugged in. -/
def contactsMinWith (search : Atom → ℚ → List PAtom) (cutoff : ℚ)
    (lig : String × Residue) : List (ResidueKey × ℚ) :=
  lig.2.atoms.foldl (fun m latom => (search latom cutoff).foldl (neighborStep latom) m) []

/-- The sort key comparison of source line 106:
`sorted(contacts_min.items(), key=lambda kv: (kv[0][1], kv[0][2], kv[1]))` —
lexicographic on (chain id, residue sequence number, minimum distance).
Comparing the squared distances is equivalent to comparing the distances. -/
def rowLe (a b : ResidueKey × ℚ) : Bool :=
  decide (a.1.chain < b.1.chain ∨ (a.1.chain = b.1.chain ∧
    (a.1.resseq < b.1.resseq ∨ (a.1.resseq = b.1.resseq ∧ a.2 ≤ b.2))))

/-- Source line 106: the stable sort of the minimum-distance map items. -/
def sortRows (m : List (ResidueKey × ℚ)) : List (ResidueKey × ℚ) :=
  m.mergeSort rowLe

/-- The ligand-instance label of source line 85. -/
def ligLabel (cr : String × Residue) : String :=
  cr.2.resname ++ " Chain " ++ cr.1 ++ " " ++ toString cr.2.resseq ++
    (if cr.2.icode = "" ∨ cr.2.icode = " " then "" else cr.2.icode)

/-- One per-ligand-instance report (source lines 107–119), still carrying the
unrounded squared minimum distances; rounding to 3 decimals happens in the
presentation layer (`contactOut`). -/
structure Report where
  ligand : String
  contacts : List (ResidueKey × ℚ)
deriving DecidableEq, Repr

/-- Build the report of one ligand instance (source lines 81–120). -/
def mkReport (protein_atoms : List PAtom) (cutoff : ℚ) (lig : String × Residue) : Report :=
  { ligand := ligLabel lig,
    contacts := sortRows (contactsMinWith (nsSearch protein_atoms) cutoff lig) }

/-- Source `find_contacts_cif` (lines 33–135).  The first component is the
returned list of reports; the second collects the `print` diagnostics of the
two early-return branches (lines 69–75).  `cif_path` names the input file
(parsing itself is the external `MMCIFParser`; `s` is its output). -/
def find_contacts_cif (s : PStructure) (cif_path : String) (ligand_name : String)
    (cutoff : ℚ) (include_waters standard_aa_only : Bool) :
    List Report × List String :=
  let ligand_residues := (classify s ligand_name include_waters standard_aa_only).1
  let protein_atoms := (classify s ligand_name include_waters standard_aa_only).2
  if ligand_residues.isEmpty then
    ([], ["❌ Ligand " ++ ligand_name ++ " not found in " ++ cif_path])
  else if protein_atoms.isEmpty then
    ([], ["❌ No protein atoms found (polymer not detected)."])
  else
    (ligand_residues.map (mkReport protein_atoms cutoff), [])

/-- Python `round(x, 3)`: the distance rounded to 3 decimal places
(source line 115). -/
noncomputable def round3 (x : ℝ) : ℝ :=
  ((round (x * 1000) : ℤ) : ℝ) / 1000

/-- One presented contact record (the dict of source lines 110–116):
`min_distance` is the Euclidean distance rounded to 3 decimals. -/
structure ContactOut where
  resname : String
  chain : String
  resnum : Int
  icode : String
  min_distance : ℝ

/-- Presentation of one row (source lines 110–116): the stored exact squared
minimum is turned into the Euclidean distance and rounded — the only place
rounding happens. -/
noncomputable def contactOut (row : ResidueKey × ℚ) : ContactOut :=
  { resname := row.1.resname, chain := row.1.chain, resnum := row.1.resseq,
    icode := row.1.icode, min_distance := round3 (Real.sqrt (row.2 : ℝ)) }

/-- A presented report (source lines 107–119). -/
structure ReportOut where
  ligand : String
  contacts : List ContactOut

/-- Presentation of a whole report. -/
noncomputable def reportOut (rep : Report) : ReportOut :=
  { ligand := rep.ligand, contacts := rep.contacts.map contactOut }

/-- One CSV data row (source line 168):
`[ligand, resname, chain, resnum, icode, min_distance]`.  The `csv` module's
string serialization of these field values is external and lossless. -/
structure CsvRow where
  ligand : String
  resname : String
  chain : String
  resnum : Int
  icode : String
  min_distance : ℝ

/-- The CSV flattening of source lines 161–168 (data rows; the fixed header
row is omitted). -/
noncomputable def csvRows (reports : List ReportOut) : List CsvRow :=
  reports.flatMap fun rep => rep.contacts.map fun c =>
    ⟨rep.ligand, c.resname, c.chain, c.resnum, c.icode, c.min_distance⟩

/-- Re-parsing one CSV data row into the `(resname, chain, resnum, icode,
min_distance)` tuple of the round-trip property. -/
def parseRow (r : CsvRow) : String × String × Int × String × ℝ :=
  (r.resname, r.chain, r.resnum, r.icode, r.min_distance)

/-- `hasattr(args, "strict-aa")` — always `False`: `argparse` stores the
`--strict-aa` option under the attribute name `strict_aa` (dashes become
underscores), so no attribute is ever literally named `"strict-aa"`. -/
def hasattr_strict_dash_aa : Bool := false

/-- `hasattr(args, "strict_aa")` — always `True`: a `store_true` option always
sets its attribute on the parsed namespace. -/
def hasattr_strict_underscore_aa : Bool := true

/-- The conditional expression of source lines 157–158 selecting the
`standard_aa_only` argument in `main`:
`args.strict-aa if hasattr(args, "strict-aa") else args.strict_aa if
hasattr(args, "strict_aa") else False`.  Python parses this right-associated:
the first branch value is the expression `args.strict - aa`, which would raise
(`args.strict` is not an attribute and `aa` is not a name) — embedded as an
error value — but its condition is always false, so evaluation falls through
to the second conditional. -/
def standard_aa_only_arg (strict_aa : Bool) : Except String Bool :=
  if hasattr_strict_dash_aa then
    Except.error "AttributeError: args.strict"
  else if hasattr_strict_underscore_aa then
    Except.ok strict_aa
  else
    Except.ok false

/-! ## Specification-side helpers: minima of lists, map lookup -/

/-- Minimum of two optional values (`none` is the identity, modelling the
`defaultdict` default `inf`). -/
def optMin : Option ℚ → Option ℚ → Option ℚ
  | none, o => o
  | some v, none => some v
  | some v, some w => some (min v w)

/-- Minimum of a list of rationals (`none` on the empty list). -/
def listMinQ : List ℚ → Option ℚ
  | [] => none
  | d :: L => optMin (some d) (listMinQ L)

/-- Lookup in the association-list embedding of the `contacts_min` dict. -/
def lookupMin : List (ResidueKey × ℚ) → ResidueKey → Option ℚ
  | [], _ => none
  | (k, v) :: rest, key => if k = key then some v else lookupMin rest key

/-- The keys of the map, in insertion order. -/
def keysOf (m : List (ResidueKey × ℚ)) : List ResidueKey :=
  m.map Prod.fst

/-- Fold a stream of `(key, distance)` hits into the map. -/
def applyHits (m : List (ResidueKey × ℚ)) (ups : List (ResidueKey × ℚ)) :
    List (ResidueKey × ℚ) :=
  ups.foldl (fun m kd => updateMin m kd.1 kd.2) m

/-- The stream of `(key, squared distance)` hits the detector folds into the
map, in processing order. -/
def updatesOf (search : Atom → ℚ → List PAtom) (cutoff : ℚ) (lig : String × Residue) :
    List (ResidueKey × ℚ) :=
  lig.2.atoms.flatMap fun la =>
    (search la cutoff).filterMap fun pa =>
      if is_aa pa.pres false then
        some (residue_key pa.chainId pa.pres, dist2 la pa.atom)
      else none

/-- The distances of a hit stream that belong to a given key. -/
def keyVals (ups : List (ResidueKey × ℚ)) (k : ResidueKey) : List ℚ :=
  ups.filterMap fun kd => if kd.1 = k then some kd.2 else none

/-- All squared distances between an atom of the ligand instance and a
candidate atom of key `k` that passes the `is_aa(·, standard=False)`
re-check — the pair set over which the per-residue minimum is taken. -/
def pairDists2 (lig : String × Residue) (patoms : List PAtom) (k : ResidueKey) : List ℚ :=
  lig.2.atoms.flatMap fun la =>
    patoms.filterMap fun pa =>
      if is_aa pa.pres false = true ∧ residue_key pa.chainId pa.pres = k then
        some (dist2 la pa.atom)
      else none

theorem dist2_comm (a b : Atom) : dist2 a b = dist2 b a := by
  unfold dist2; ring

theorem optMin_none_right (o : Option ℚ) : optMin o none = o := by
  cases o <;> rfl

theorem optMin_comm (a b : Option ℚ) : optMin a b = optMin b a := by
  cases a <;> cases b <;> simp [optMin, min_comm]

theorem optMin_assoc (a b c : Option ℚ) :
    optMin (optMin a b) c = optMin a (optMin b c) := by
  cases a <;> cases b <;> cases c <;> simp [optMin, min_assoc]

theorem listMinQ_ne_none (d : ℚ) (L : List ℚ) : listMinQ (d :: L) ≠ none := by
  cases h : listMinQ L <;> simp [listMinQ, optMin, h]

theorem listMinQ_eq_some_iff (L : List ℚ) (v : ℚ) :
    listMinQ L = some v ↔ v ∈ L ∧ ∀ d ∈ L, v ≤ d := by
  induction L generalizing v with
  | nil => simp [listMinQ]
  | cons d L ih =>
    cases h : listMinQ L with
    | none =>
      have hL : L = [] := by
        cases L with
        | nil => rfl
        | cons e M => exact absurd h (listMinQ_ne_none e M)
      subst hL
      constructor
      · intro hv
        have hvd : v = d := by
          have := hv
          simp only [listMinQ, optMin, Option.some.injEq] at this
          exact this.symm
        subst hvd
        exact ⟨List.mem_singleton_self v, fun e he => by
          rw [List.mem_singleton.mp he]⟩
      · rintro ⟨hmem, -⟩
        rw [List.mem_singleton.mp hmem]
        rfl
    | some w =>
      have hw := (ih w).mp h
      constructor
      · intro hv
        have hvmin : min d w = v := by
          simpa [listMinQ, h, optMin] using hv
        subst hvmin
        constructor
        · rcases min_cases d w with ⟨hmin, _⟩ | ⟨hmin, _⟩
          · simp [hmin]
          · simp [hmin, hw.1]
        · intro e he
          rcases List.mem_cons.mp he with rfl | heL
          · exact min_le_left _ _
          · exact le_trans (min_le_right _ _) (hw.2 e heL)
      · rintro ⟨hmem, hbd⟩
        have hvw : v ≤ w := hbd w (List.mem_cons_of_mem d hw.1)
        have hvd : v ≤ d := hbd d (List.mem_cons_self d L)
        have hwv : min d w ≤ v := by
          rcases List.mem_cons.mp hmem with rfl | hmemL
          · exact min_le_left v w
          · exact le_trans (min_le_right d w) (hw.2 v hmemL)
        have : v = min d w := le_antisymm (le_min hvd hvw) hwv
        simp [listMinQ, h, optMin, this]

theorem ite_min (d v : ℚ) : (if d < v then d else v) = min d v := by
  rcases le_or_lt v d with h | h
  · rw [min_eq_right h]
    by_cases h' : d < v
    · exact absurd h (not_le.mpr h')
    · simp [h']
  · rw [if_pos h, min_eq_left (le_of_lt h)]

theorem updateMin_cons (k0 : ResidueKey) (v0 : ℚ) (rest : List (ResidueKey × ℚ))
    (k : ResidueKey) (d : ℚ) :
    updateMin ((k0, v0) :: rest) k d =
      if k0 = k then (k0, min d v0) :: rest else (k0, v0) :: updateMin rest k d := by
  by_cases h : k0 = k
  · simp only [updateMin, if_pos h]
    congr 1
    split_ifs with hd
    · rw [min_eq_left (le_of_lt hd)]
    · rw [min_eq_right (not_lt.mp hd)]
  · simp [updateMin, h]

theorem lookupMin_cons (k0 : ResidueKey) (v0 : ℚ) (rest : List (ResidueKey × ℚ))
    (k : ResidueKey) :
    lookupMin ((k0, v0) :: rest) k = if k0 = k then some v0 else lookupMin rest k := rfl

theorem lookupMin_updateMin (m : List (ResidueKey × ℚ)) (k : ResidueKey) (d : ℚ)
    (k' : ResidueKey) :
    lookupMin (updateMin m k d) k' =
      if k' = k then optMin (some d) (lookupMin m k) else lookupMin m k' := by
  induction m with
  | nil =>
    by_cases h : k' = k
    · subst h; simp [updateMin, lookupMin, optMin]
    · have h2 : ¬k = k' := fun hh => h hh.symm
      simp [updateMin, lookupMin, optMin, h, h2]
  | cons kv rest ih =>
    obtain ⟨k0, v0⟩ := kv
    rw [updateMin_cons]
    by_cases h0 : k0 = k
    · subst h0
      rw [if_pos rfl]
      by_cases h' : k' = k0
      · subst h'
        simp [lookupMin_cons, optMin]
      · have h'' : ¬k0 = k' := fun hh => h' hh.symm
        simp [lookupMin_cons, h', h'']
    · rw [if_neg h0]
      by_cases h1 : k0 = k'
      · have hk'k : ¬k' = k := fun hh => h0 (h1.trans hh)
        simp [lookupMin_cons, h1, hk'k]
      · simp only [lookupMin_cons, if_neg h1]
        rw [ih, if_neg h0]

theorem keysOf_cons (k0 : ResidueKey) (v0 : ℚ) (l : List (ResidueKey × ℚ)) :
    keysOf ((k0, v0) :: l) = k0 :: keysOf l := rfl

theorem keysOf_updateMin (m : List (ResidueKey × ℚ)) (k : ResidueKey) (d : ℚ) :
    keysOf (updateMin m k d) =
      if k ∈ keysOf m then keysOf m else keysOf m ++ [k] := by
  induction m with
  | nil => simp [updateMin, keysOf]
  | cons kv rest ih =>
    obtain ⟨k0, v0⟩ := kv
    rw [updateMin_cons]
    by_cases h0 : k0 = k
    · subst h0
      simp [keysOf]
    · rw [if_neg h0, keysOf_cons, keysOf_cons, ih]
      have hne : ¬k = k0 := fun hh => h0 hh.symm
      by_cases hmem : k ∈ keysOf rest
      · simp [hmem, hne, List.mem_cons]
      · simp [hmem, hne, List.mem_cons]

theorem nodup_keysOf_updateMin (m : List (ResidueKey × ℚ)) (k : ResidueKey) (d : ℚ)
    (h : (keysOf m).Nodup) : (keysOf (updateMin m k d)).Nodup := by
  rw [keysOf_updateMin]
  by_cases hmem : k ∈ keysOf m
  · simpa [hmem] using h
  · rw [if_neg hmem, List.nodup_append]
    refine ⟨h, List.nodup_singleton k, ?_⟩
    intro a ha hb
    rw [List.mem_singleton.mp hb] at ha
    exact hmem ha

theorem mem_iff_lookupMin (m : List (ResidueKey × ℚ)) (h : (keysOf m).Nodup)
    (k : ResidueKey) (v : ℚ) : (k, v) ∈ m ↔ lookupMin m k = some v := by
  induction m with
  | nil => simp [lookupMin]
  | cons kv rest ih =>
    obtain ⟨k0, v0⟩ := kv
    simp only [keysOf, List.map_cons, List.nodup_cons] at h
    rw [lookupMin_cons]
    by_cases h0 : k0 = k
    · subst h0
      rw [if_pos rfl]
      simp only [List.mem_cons, Prod.mk.injEq, true_and, Option.some.injEq]
      constructor
      · rintro (rfl | hmem)
        · rfl
        · exact absurd (List.mem_map_of_mem Prod.fst hmem) h.1
      · rintro rfl
        exact Or.inl rfl
    · rw [if_neg h0]
      rw [← ih (by simpa [keysOf] using h.2)]
      simp only [List.mem_cons, Prod.mk.injEq]
      constructor
      · rintro (⟨rfl, rfl⟩ | hmem)
        · exact absurd rfl h0
        · exact hmem
      · exact Or.inr

theorem applyHits_cons (m : List (ResidueKey × ℚ)) (u : ResidueKey × ℚ)
    (ups : List (ResidueKey × ℚ)) :
    applyHits m (u :: ups) = applyHits (updateMin m u.1 u.2) ups := rfl

theorem applyHits_append (m : List (ResidueKey × ℚ)) (a b : List (ResidueKey × ℚ)) :
    applyHits m (a ++ b) = applyHits (applyHits m a) b := by
  simp [applyHits]

theorem keyVals_cons (u : ResidueKey × ℚ) (ups : List (ResidueKey × ℚ)) (k : ResidueKey) :
    keyVals (u :: ups) k = if u.1 = k then u.2 :: keyVals ups k else keyVals ups k := by
  obtain ⟨uk, ud⟩ := u
  by_cases h : uk = k <;> simp [keyVals, List.filterMap_cons, h]

theorem keyVals_append (a b : List (ResidueKey × ℚ)) (k : ResidueKey) :
    keyVals (a ++ b) k = keyVals a k ++ keyVals b k := by
  simp [keyVals]

theorem lookupMin_applyHits (ups : List (ResidueKey × ℚ)) (m : List (ResidueKey × ℚ))
    (k : ResidueKey) :
    lookupMin (applyHits m ups) k = optMin (lookupMin m k) (listMinQ (keyVals ups k)) := by
  induction ups generalizing m with
  | nil => simp [applyHits, keyVals, listMinQ, optMin_none_right]
  | cons u ups ih =>
    rw [applyHits_cons, ih, lookupMin_updateMin, keyVals_cons]
    by_cases h : u.1 = k
    · rw [if_pos h, if_pos h.symm, h]
      show optMin (optMin (some u.2) (lookupMin m k)) (listMinQ (keyVals ups k)) =
        optMin (lookupMin m k) (optMin (some u.2) (listMinQ (keyVals ups k)))
      rw [optMin_comm (some u.2) (lookupMin m k), optMin_assoc]
    · rw [if_neg h, if_neg (fun hh : k = u.1 => h hh.symm)]

theorem nodup_keysOf_applyHits (ups : List (ResidueKey × ℚ)) (m : List (ResidueKey × ℚ))
    (h : (keysOf m).Nodup) : (keysOf (applyHits m ups)).Nodup := by
  induction ups generalizing m with
  | nil => exact h
  | cons u ups ih =>
    rw [applyHits_cons]
    exact ih _ (nodup_keysOf_updateMin _ _ _ h)

theorem contactsMinWith_eq_applyHits (search : Atom → ℚ → List PAtom) (cutoff : ℚ)
    (lig : String × Residue) :
    contactsMinWith search cutoff lig = applyHits [] (updatesOf search cutoff lig) := by
  have inner : ∀ (l : List PAtom) (m : List (ResidueKey × ℚ)) (latom : Atom),
      l.foldl (neighborStep latom) m =
        applyHits m (l.filterMap fun pa =>
          if is_aa pa.pres false then
            some (residue_key pa.chainId pa.pres, dist2 latom pa.atom)
          else none) := by
    intro l
    induction l with
    | nil => intro m latom; simp [applyHits]
    | cons pa rest ih =>
      intro m latom
      by_cases h : is_aa pa.pres false = true
      · simp only [List.foldl_cons, List.filterMap_cons, h, neighborStep, if_true, ite_true]
        rw [ih, applyHits_cons]
      · simp only [List.foldl_cons, List.filterMap_cons, h, neighborStep, if_false, ite_false]
        exact ih m latom
  have outer : ∀ (atoms : List Atom) (m : List (ResidueKey × ℚ)),
      atoms.foldl (fun m latom => (search latom cutoff).foldl (neighborStep latom) m) m =
        applyHits m (atoms.flatMap fun la =>
          (search la cutoff).filterMap fun pa =>
            if is_aa pa.pres false then
              some (residue_key pa.chainId pa.pres, dist2 la pa.atom)
            else none) := by
    intro atoms
    induction atoms with
    | nil => intro m; simp [applyHits]
    | cons la rest ih =>
      intro m
      rw [List.foldl_cons, List.flatMap_cons, applyHits_append, ← inner, ih]
  exact outer lig.2.atoms []

theorem nsSearch_cons (pa : PAtom) (ptail : List PAtom) (la : Atom) (c : ℚ) :
    nsSearch (pa :: ptail) la c =
      if dist2 pa.atom la ≤ c * c then pa :: nsSearch ptail la c
      else nsSearch ptail la c := by
  simp [nsSearch, List.filter_cons]

theorem keyVals_filterMap_nsSearch (la : Atom) (patoms : List PAtom) (c : ℚ)
    (k : ResidueKey) :
    keyVals ((nsSearch patoms la c).filterMap fun pa =>
        if is_aa pa.pres false then
          some (residue_key pa.chainId pa.pres, dist2 la pa.atom)
        else none) k =
      (patoms.filterMap fun pa =>
        if is_aa pa.pres false = true ∧ residue_key pa.chainId pa.pres = k then
          some (dist2 la pa.atom)
        else none).filter fun d => decide (d ≤ c * c) := by
  induction patoms with
  | nil => simp [nsSearch, keyVals]
  | cons pa ptail ihp =>
    rw [nsSearch_cons]
    by_cases hr : dist2 pa.atom la ≤ c * c
    · have hr' : dist2 la pa.atom ≤ c * c := by rwa [dist2_comm la pa.atom]
      rw [if_pos hr]
      by_cases ha : is_aa pa.pres false = true
      · by_cases hk : residue_key pa.chainId pa.pres = k
        · simp [List.filterMap_cons, keyVals_cons, ha, hk, List.filter_cons, hr', ihp]
        · simp [List.filterMap_cons, keyVals_cons, ha, hk, ihp]
      · simp [List.filterMap_cons, ha, ihp]
    · have hr' : ¬dist2 la pa.atom ≤ c * c := by rwa [dist2_comm la pa.atom]
      rw [if_neg hr]
      by_cases ha : is_aa pa.pres false = true
      · by_cases hk : residue_key pa.chainId pa.pres = k
        · simp [List.filterMap_cons, ha, hk, List.filter_cons, hr', ihp]
        · simp [List.filterMap_cons, ha, hk, ihp]
      · simp [List.filterMap_cons, ha, ihp]

theorem keyVals_updatesOf_nsSearch_aux (atoms : List Atom) (patoms : List PAtom)
    (c : ℚ) (k : ResidueKey) :
    keyVals (atoms.flatMap fun la =>
        (nsSearch patoms la c).filterMap fun pa =>
          if is_aa pa.pres false then
            some (residue_key pa.chainId pa.pres, dist2 la pa.atom)
          else none) k =
      (atoms.flatMap fun la =>
        patoms.filterMap fun pa =>
          if is_aa pa.pres false = true ∧ residue_key pa.chainId pa.pres = k then
            some (dist2 la pa.atom)
          else none).filter fun d => decide (d ≤ c * c) := by
  induction atoms with
  | nil => simp [keyVals]
  | cons la rest ih =>
    rw [List.flatMap_cons, List.flatMap_cons, keyVals_append, List.filter_append, ih,
      keyVals_filterMap_nsSearch]

theorem keyVals_updatesOf_nsSearch (patoms : List PAtom) (cutoff : ℚ)
    (lig : String × Residue) (k : ResidueKey) :
    keyVals (updatesOf (nsSearch patoms) cutoff lig) k =
      (pairDists2 lig patoms k).filter fun d => decide (d ≤ cutoff * cutoff) := by
  unfold updatesOf pairDists2
  exact keyVals_updatesOf_nsSearch_aux lig.2.atoms patoms cutoff k

theorem listMinQ_filter_le_iff (L : List ℚ) (c v : ℚ) :
    listMinQ (L.filter fun d => decide (d ≤ c)) = some v ↔
      listMinQ L = some v ∧ v ≤ c := by
  rw [listMinQ_eq_some_iff, listMinQ_eq_some_iff]
  constructor
  · rintro ⟨hmem, hbd⟩
    have hvL : v ∈ L := (List.mem_filter.mp hmem).1
    have hvc : v ≤ c := by simpa using (List.mem_filter.mp hmem).2
    refine ⟨⟨hvL, ?_⟩, hvc⟩
    intro e he
    by_cases hec : e ≤ c
    · exact hbd e (List.mem_filter.mpr ⟨he, by simpa using hec⟩)
    · exact le_trans hvc (le_of_lt (not_le.mp hec))
  · rintro ⟨⟨hmem, hbd⟩, hvc⟩
    refine ⟨List.mem_filter.mpr ⟨hmem, by simpa using hvc⟩, ?_⟩
    intro e he
    exact hbd e (List.mem_filter.mp he).1

/-- Master characterization of the per-ligand minimum-distance map built with
the exact `NeighborSearch` radius query: a key is present with value `v` iff
`v` is the minimum squared pair distance for that key and lies within the
(squared) cutoff. -/
theorem lookupMin_contactsMin_iff (patoms : List PAtom) (cutoff : ℚ)
    (lig : String × Residue) (k : ResidueKey) (v : ℚ) :
    lookupMin (contactsMinWith (nsSearch patoms) cutoff lig) k = some v ↔
      listMinQ (pairDists2 lig patoms k) = some v ∧ v ≤ cutoff * cutoff := by
  rw [contactsMinWith_eq_applyHits, lookupMin_applyHits, keyVals_updatesOf_nsSearch]
  show optMin none _ = some v ↔ _
  rw [show ∀ o, optMin none o = o from fun o => rfl]
  exact listMinQ_filter_le_iff _ _ _

/-- The keys of the per-ligand minimum-distance map are pairwise distinct. -/
theorem nodup_keysOf_contactsMin (search : Atom → ℚ → List PAtom) (cutoff : ℚ)
    (lig : String × Residue) :
    (keysOf (contactsMinWith search cutoff lig)).Nodup := by
  rw [contactsMinWith_eq_applyHits]
  exact nodup_keysOf_applyHits _ _ (by simp [keysOf])

/-! ## Closed form of the classifier -/

/-- The classifier's ligand test: stripped resname equals the ligand name. -/
def isLigRes (ligand_name : String) (cr : String × Residue) : Bool :=
  decide (pyStrip cr.2.resname = ligand_name)

/-- The classifier's protein test: not the ligand, not a water, and accepted
by `is_aa` at the configured strictness. -/
def isProtRes (ligand_name : String) (std : Bool) (cr : String × Residue) : Bool :=
  !decide (pyStrip cr.2.resname = ligand_name) && !pyStartsWith cr.2.hetflag "W" &&
    is_aa cr.2 std

/-- The candidate atoms contributed by one classified protein residue. -/
def protAtomsOf (cr : String × Residue) : List PAtom :=
  cr.2.atoms.map fun a => ⟨a, cr.1, cr.2⟩

theorem classify_foldl (ligand_name : String) (iw std : Bool)
    (L : List (String × Residue)) (acc : List (String × Residue) × List PAtom) :
    L.foldl (classifyStep ligand_name iw std) acc =
      (acc.1 ++ L.filter (isLigRes ligand_name),
       acc.2 ++ (L.filter (isProtRes ligand_name std)).flatMap protAtomsOf) := by
  induction L generalizing acc with
  | nil => simp
  | cons cr rest ih =>
    rw [List.foldl_cons, ih]
    rcases acc with ⟨ligs, patoms⟩
    by_cases h1 : pyStrip cr.2.resname = ligand_name
    · simp [classifyStep, isLigRes, isProtRes, h1, List.filter_cons]
    · by_cases h2 : pyStartsWith cr.2.hetflag "W" = true
      · simp [classifyStep, isLigRes, isProtRes, h1, h2, List.filter_cons]
      · by_cases h3 : is_aa cr.2 std = true
        · simp [classifyStep, isLigRes, isProtRes, protAtomsOf, h1, h2, h3,
            List.filter_cons]
        · simp [classifyStep, isLigRes, isProtRes, h1, h2, h3, List.filter_cons]

/-- Closed form of the classification pass. -/
theorem classify_eq (s : PStructure) (ligand_name : String) (iw std : Bool) :
    classify s ligand_name iw std =
      ((allResidues s).filter (isLigRes ligand_name),
       ((allResidues s).filter (isProtRes ligand_name std)).flatMap protAtomsOf) := by
  rw [classify, classify_foldl]
  simp

theorem mem_protein_atoms_iff (s : PStructure) (ligand_name : String) (iw std : Bool)
    (pa : PAtom) :
    pa ∈ (classify s ligand_name iw std).2 ↔
      ∃ cr ∈ allResidues s, isProtRes ligand_name std cr = true ∧ pa ∈ protAtomsOf cr := by
  rw [classify_eq]
  simp only [List.mem_flatMap, List.mem_filter]
  constructor
  · rintro ⟨cr, ⟨hmem, hpred⟩, hpa⟩
    exact ⟨cr, hmem, hpred, hpa⟩
  · rintro ⟨cr, hmem, hpred, hpa⟩
    exact ⟨cr, ⟨hmem, hpred⟩, hpa⟩

theorem protein_atoms_of_classified (s : PStructure) (ligand_name : String)
    (iw std : Bool) (cr : String × Residue) (hmem : cr ∈ allResidues s)
    (hprot : isProtRes ligand_name std cr = true) (a : Atom) (ha : a ∈ cr.2.atoms) :
    (⟨a, cr.1, cr.2⟩ : PAtom) ∈ (classify s ligand_name iw std).2 := by
  rw [mem_protein_atoms_iff]
  exact ⟨cr, hmem, hprot, List.mem_map_of_mem _ ha⟩

/-- Biopython fact: a standard amino acid is in particular an (extended)
amino acid, so `is_aa(·, standard=True) → is_aa(·, standard=False)`.  This is
a property of the external classifier, assumed where needed. -/
def aa_wf (s : PStructure) : Prop :=
  ∀ cr ∈ allResidues s, cr.2.aa_standard = true → cr.2.aa_extended = true

instance instDecidableAaWf (s : PStructure) : Decidable (aa_wf s) :=
  inferInstanceAs
    (Decidable (∀ cr ∈ allResidues s, cr.2.aa_standard = true → cr.2.aa_extended = true))

theorem is_aa_false_of_classified (s : PStructure) (std : Bool)
    (hwf : aa_wf s) (cr : String × Residue) (hmem : cr ∈ allResidues s)
    (h : is_aa cr.2 std = true) : is_aa cr.2 false = true := by
  cases std with
  | false => exact h
  | true => exact hwf cr hmem h

/-! ## The sort of the report aggregator -/

/-- The claimed report ordering: chain ascending, then residue number
ascending, then minimum Euclidean distance ascending as the tie-break. -/
def rowRel (a b : ResidueKey × ℚ) : Prop :=
  a.1.chain < b.1.chain ∨ (a.1.chain = b.1.chain ∧
    (a.1.resseq < b.1.resseq ∨ (a.1.resseq = b.1.resseq ∧
      Real.sqrt (a.2 : ℝ) ≤ Real.sqrt (b.2 : ℝ))))

theorem rowLe_trans (a b c : ResidueKey × ℚ) (hab : rowLe a b) (hbc : rowLe b c) :
    rowLe a c := by
  simp only [rowLe, decide_eq_true_eq] at hab hbc ⊢
  rcases hab with h1 | ⟨he1, h1⟩
  · rcases hbc with h2 | ⟨he2, h2⟩
    · exact Or.inl (lt_trans h1 h2)
    · exact Or.inl (he2 ▸ h1)
  · rcases hbc with h2 | ⟨he2, h2⟩
    · exact Or.inl (he1 ▸ h2)
    · refine Or.inr ⟨he1.trans he2, ?_⟩
      rcases h1 with h1 | ⟨hf1, h1⟩
      · rcases h2 with h2 | ⟨hf2, h2⟩
        · exact Or.inl (lt_trans h1 h2)
        · exact Or.inl (hf2 ▸ h1)
      · rcases h2 with h2 | ⟨hf2, h2⟩
        · exact Or.inl (hf1 ▸ h2)
        · exact Or.inr ⟨hf1.trans hf2, le_trans h1 h2⟩

theorem rowLe_total (a b : ResidueKey × ℚ) : rowLe a b || rowLe b a := by
  simp only [rowLe, Bool.or_eq_true, decide_eq_true_eq]
  rcases lt_trichotomy a.1.chain b.1.chain with h | h | h
  · exact Or.inl (Or.inl h)
  · rcases lt_trichotomy a.1.resseq b.1.resseq with h' | h' | h'
    · exact Or.inl (Or.inr ⟨h, Or.inl h'⟩)
    · rcases le_total a.2 b.2 with h'' | h''
      · exact Or.inl (Or.inr ⟨h, Or.inr ⟨h', h''⟩⟩)
      · exact Or.inr (Or.inr ⟨h.symm, Or.inr ⟨h'.symm, h''⟩⟩)
    · exact Or.inr (Or.inr ⟨h.symm, Or.inl h'⟩)
  · exact Or.inr (Or.inl h)

theorem rowLe_imp_rowRel (a b : ResidueKey × ℚ) (h : rowLe a b = true) : rowRel a b := by
  simp only [rowLe, decide_eq_true_eq] at h
  rcases h with h | ⟨he, h⟩
  · exact Or.inl h
  · refine Or.inr ⟨he, ?_⟩
    rcases h with h | ⟨hf, h⟩
    · exact Or.inl h
    · exact Or.inr ⟨hf, Real.sqrt_le_sqrt (by exact_mod_cast h)⟩

/-- The rows of a report are sorted by the comparator of source line 106. -/
theorem sortRows_pairwise (m : List (ResidueKey × ℚ)) :
    (sortRows m).Pairwise rowRel :=
  (List.sorted_mergeSort rowLe_trans rowLe_total m).imp
    (fun h => rowLe_imp_rowRel _ _ h)

theorem sortRows_perm (m : List (ResidueKey × ℚ)) : List.Perm (sortRows m) m :=
  List.mergeSort_perm m rowLe

/-- Membership in a report's contact rows is lookup in the per-ligand map. -/
theorem mem_mkReport_iff (patoms : List PAtom) (cutoff : ℚ) (lig : String × Residue)
    (k : ResidueKey) (v : ℚ) :
    (k, v) ∈ (mkReport patoms cutoff lig).contacts ↔
      lookupMin (contactsMinWith (nsSearch patoms) cutoff lig) k = some v := by
  show (k, v) ∈ sortRows (contactsMinWith (nsSearch patoms) cutoff lig) ↔ _
  rw [(sortRows_perm _).mem_iff]
  exact mem_iff_lookupMin _ (nodup_keysOf_contactsMin _ _ _) k v

/-- When the ligand is present and candidate atoms exist, `find_contacts_cif`
returns one report per ligand instance and no diagnostics. -/
theorem find_contacts_cif_reports (s : PStructure) (cif_path ligand_name : String)
    (cutoff : ℚ) (iw std : Bool)
    (h1 : (classify s ligand_name iw std).1 ≠ [])
    (h2 : (classify s ligand_name iw std).2 ≠ []) :
    find_contacts_cif s cif_path ligand_name cutoff iw std =
      ((classify s ligand_name iw std).1.map
        (mkReport (classify s ligand_name iw std).2 cutoff), []) := by
  rw [find_contacts_cif]
  simp only [List.isEmpty_iff, h1, h2, if_false, ite_false]

theorem dist2_nonneg (a b : Atom) : 0 ≤ dist2 a b :=
  add_nonneg (add_nonneg (mul_self_nonneg _) (mul_self_nonneg _)) (mul_self_nonneg _)

theorem mem_pairDists2_iff (lig : String × Residue) (patoms : List PAtom)
    (k : ResidueKey) (d : ℚ) :
    d ∈ pairDists2 lig patoms k ↔
      ∃ la ∈ lig.2.atoms, ∃ pa ∈ patoms,
        is_aa pa.pres false = true ∧ residue_key pa.chainId pa.pres = k ∧
          dist2 la pa.atom = d := by
  simp only [pairDists2, List.mem_flatMap, List.mem_filterMap,
    Option.ite_none_right_eq_some, Option.some.injEq]
  constructor
  · rintro ⟨la, hla, pa, hpa, ⟨h1, h2⟩, h3⟩
    exact ⟨la, hla, pa, hpa, h1, h2, h3⟩
  · rintro ⟨la, hla, pa, hpa, h1, h2, h3⟩
    exact ⟨la, hla, pa, hpa, ⟨h1, h2⟩, h3⟩

/-! ## Concrete test structures for the witnesses -/

/-- Scenario structure of spec §8: one GSH ligand atom at the origin; residue
R1 (chain A, resseq 10) with atoms at distances 2 and 1; residue R2 (chain A,
resseq 20) with one atom at distance 10. -/
def scnLig : Residue := ⟨"GSH", 1, " ", "H_GSH", false, false, [⟨0, 0, 0⟩]⟩

def scnR1 : Residue := ⟨"ALA", 10, " ", " ", true, true, [⟨2, 0, 0⟩, ⟨1, 0, 0⟩]⟩

def scnR2 : Residue := ⟨"GLY", 20, " ", " ", true, true, [⟨10, 0, 0⟩]⟩

def scnS : PStructure := ⟨[⟨[⟨"A", [scnLig, scnR1, scnR2]⟩]⟩]⟩

/-- Variant structure in which both residues are in range and the nearer one
has the larger residue number. -/
def ordR1 : Residue := ⟨"ALA", 10, " ", " ", true, true, [⟨2, 0, 0⟩]⟩

def ordR2 : Residue := ⟨"GLY", 20, " ", " ", true, true, [⟨1, 0, 0⟩]⟩

def ordS : PStructure := ⟨[⟨[⟨"A", [scnLig, ordR1, ordR2]⟩]⟩]⟩

/-! ## Claims -/

/-- C1: after all atoms of a ligand instance are processed, the per-instance
minimum-distance map holds exactly one entry per contacting residue key
(Nodup keys), an entry with value `v` exists iff `v` is the minimum squared
pair distance for that key and is within the squared cutoff, the entry is
attained by a pair and is a lower bound of all pair distances (so its square
root is the true minimum Euclidean distance over the candidate pairs), and —
for any amino-acid residue of the structure carrying that key — the entry is
at most the Euclidean distance from every ligand atom to every atom of that
residue. -/
theorem contacts_min_map_correct (s : PStructure) (ligand_name : String) (cutoff : ℚ)
    (iw std : Bool) (hwf : aa_wf s) (lig : String × Residue)
    (hlig : lig ∈ (classify s ligand_name iw std).1) :
    (keysOf (contactsMinWith (nsSearch (classify s ligand_name iw std).2) cutoff lig)).Nodup ∧
    (∀ k v, lookupMin (contactsMinWith (nsSearch (classify s ligand_name iw std).2)
        cutoff lig) k = some v ↔
      (listMinQ (pairDists2 lig (classify s ligand_name iw std).2 k) = some v ∧
        v ≤ cutoff * cutoff)) ∧
    (∀ k v, lookupMin (contactsMinWith (nsSearch (classify s ligand_name iw std).2)
        cutoff lig) k = some v →
      v ∈ pairDists2 lig (classify s ligand_name iw std).2 k ∧
        ∀ d ∈ pairDists2 lig (classify s ligand_name iw std).2 k,
          Real.sqrt (v : ℝ) ≤ Real.sqrt (d : ℝ)) ∧
    (∀ k v, lookupMin (contactsMinWith (nsSearch (classify s ligand_name iw std).2)
        cutoff lig) k = some v →
      ∀ cr ∈ allResidues s, isProtRes ligand_name std cr = true →
        residue_key cr.1 cr.2 = k →
          ∀ la ∈ lig.2.atoms, ∀ a ∈ cr.2.atoms, Real.sqrt (v : ℝ) ≤ dist la a) := by
  refine ⟨nodup_keysOf_contactsMin _ _ _,
    fun k v => lookupMin_contactsMin_iff _ _ _ _ _, ?_, ?_⟩
  · intro k v h
    have hc := (lookupMin_contactsMin_iff _ _ _ _ _).mp h
    have hmin := (listMinQ_eq_some_iff _ _).mp hc.1
    exact ⟨hmin.1, fun d hd => Real.sqrt_le_sqrt (by exact_mod_cast hmin.2 d hd)⟩
  · intro k v h cr hcr hprot hkey la hla a ha
    have hc := (lookupMin_contactsMin_iff _ _ _ _ _).mp h
    have hmin := (listMinQ_eq_some_iff _ _).mp hc.1
    have haa : is_aa cr.2 false = true := by
      have : is_aa cr.2 std = true := by
        simp only [isProtRes, Bool.and_eq_true] at hprot
        exact hprot.2
      exact is_aa_false_of_classified s std hwf cr hcr this
    have hpa : (⟨a, cr.1, cr.2⟩ : PAtom) ∈ (classify s ligand_name iw std).2 :=
      protein_atoms_of_classified s ligand_name iw std cr hcr hprot a ha
    have hd : dist2 la a ∈ pairDists2 lig (classify s ligand_name iw std).2 k := by
      rw [mem_pairDists2_iff]
      exact ⟨la, hla, ⟨a, cr.1, cr.2⟩, hpa, haa, hkey, rfl⟩
    have hbd2 := hmin.2 _ hd
    exact Real.sqrt_le_sqrt (by exact_mod_cast hbd2)

/-- Witness for C1, on the spec §8 scenario with cutoff 4.5: the map holds a
single entry, for R1, whose value is the exact minimum squared distance 1
(Euclidean distance 1.0); R2 at distance 10 is excluded. -/
theorem contacts_min_map_correct_witness :
    aa_wf scnS ∧
    ("A", scnLig) ∈ (classify scnS "GSH" false true).1 ∧
    contactsMinWith (nsSearch (classify scnS "GSH" false true).2) (9/2) ("A", scnLig) =
      [(⟨"ALA", "A", 10, " "⟩, 1)] ∧
    (lookupMin (contactsMinWith (nsSearch (classify scnS "GSH" false true).2) (9/2)
        ("A", scnLig)) ⟨"ALA", "A", 10, " "⟩ = some 1 ↔
      (listMinQ (pairDists2 ("A", scnLig) (classify scnS "GSH" false true).2
          ⟨"ALA", "A", 10, " "⟩) = some 1 ∧ (1 : ℚ) ≤ (9/2) * (9/2))) ∧
    Real.sqrt ((1 : ℚ) : ℝ) = 1 :=
  ⟨by with_unfolding_all decide, by with_unfolding_all decide, by with_unfolding_all decide,
    (contacts_min_map_correct scnS "GSH" (9/2) false true (by with_unfolding_all decide)
      ("A", scnLig) (by with_unfolding_all decide)).2.1 ⟨"ALA", "A", 10, " "⟩ 1,
    by rw [Rat.cast_one, Real.sqrt_one]⟩

/-- C2: every report's contact sequence produced by `find_contacts_cif` is
sorted by chain identifier ascending, then residue sequence number ascending,
then minimum Euclidean distance ascending as the final tie-break. -/
theorem report_contacts_sorted (s : PStructure) (cif_path ligand_name : String)
    (cutoff : ℚ) (iw std : Bool) (rep : Report)
    (hrep : rep ∈ (find_contacts_cif s cif_path ligand_name cutoff iw std).1) :
    rep.contacts.Pairwise rowRel := by
  simp only [find_contacts_cif] at hrep
  by_cases h1 : ((classify s ligand_name iw std).1).isEmpty = true
  · rw [if_pos h1] at hrep
    simp at hrep
  · rw [if_neg h1] at hrep
    by_cases h2 : ((classify s ligand_name iw std).2).isEmpty = true
    · rw [if_pos h2] at hrep
      simp at hrep
    · rw [if_neg h2] at hrep
      simp only [List.mem_map] at hrep
      obtain ⟨lig, _, rfl⟩ := hrep
      exact sortRows_pairwise _

/-- Witness for C2, on the two-residue structure where the nearer residue has
the larger residue number: residue 10 (distance 2) precedes residue 20
(distance 1) in the report, and the conclusion of the sorting theorem holds
at that concrete report. -/
theorem report_contacts_sorted_witness :
    (⟨"GSH Chain A 1", [(⟨"ALA", "A", 10, " "⟩, (4 : ℚ)), (⟨"GLY", "A", 20, " "⟩, 1)]⟩ :
        Report) ∈ (find_contacts_cif ordS "in.cif" "GSH" (9/2) false true).1 ∧
    ([((⟨"ALA", "A", 10, " "⟩ : ResidueKey), (4 : ℚ)),
      (⟨"GLY", "A", 20, " "⟩, 1)]).Pairwise rowRel :=
  ⟨by with_unfolding_all decide,
   report_contacts_sorted ordS "in.cif" "GSH" (9/2) false true
     ⟨"GSH Chain A 1", [(⟨"ALA", "A", 10, " "⟩, (4 : ℚ)), (⟨"GLY", "A", 20, " "⟩, 1)]⟩
     (by with_unfolding_all decide)⟩

theorem find_contacts_cif_nil (s : PStructure) (cif_path ligand_name : String)
    (cutoff : ℚ) (iw std : Bool)
    (h : (classify s ligand_name iw std).1 = [] ∨ (classify s ligand_name iw std).2 = []) :
    (find_contacts_cif s cif_path ligand_name cutoff iw std).1 = [] := by
  simp only [find_contacts_cif]
  by_cases hL : ((classify s ligand_name iw std).1).isEmpty = true
  · rw [if_pos hL]
  · rcases h with h | h
    · exact absurd (by simp [h] : ((classify s ligand_name iw std).1).isEmpty = true) hL
    · rw [if_neg hL,
        if_pos (by simp [h] : ((classify s ligand_name iw std).2).isEmpty = true)]

/-- C3: for a fixed structure and ligand instance, and cutoffs `0 ≤ r1 < r2`,
every contact row of the report at `r1` appears identically in the report at
`r2` (so the contact set at `r2` is a superset), and the `r2` report assigns
that residue no distance other than the shared one. -/
theorem contacts_monotone_cutoff (s : PStructure) (cif_path ligand_name : String)
    (iw std : Bool) (r1 r2 : ℚ) (h0 : 0 ≤ r1) (h12 : r1 < r2) (i : ℕ)
    (rep1 rep2 : Report)
    (h1 : ((find_contacts_cif s cif_path ligand_name r1 iw std).1)[i]? = some rep1)
    (h2 : ((find_contacts_cif s cif_path ligand_name r2 iw std).1)[i]? = some rep2)
    (k : ResidueKey) (v : ℚ) (hmem : (k, v) ∈ rep1.contacts) :
    (k, v) ∈ rep2.contacts ∧ ∀ v', (k, v') ∈ rep2.contacts → v' = v := by
  by_cases hL : (classify s ligand_name iw std).1 = []
  · rw [find_contacts_cif_nil s cif_path ligand_name r1 iw std (Or.inl hL)] at h1
    simp at h1
  · by_cases hP : (classify s ligand_name iw std).2 = []
    · rw [find_contacts_cif_nil s cif_path ligand_name r1 iw std (Or.inr hP)] at h1
      simp at h1
    · rw [find_contacts_cif_reports s cif_path ligand_name r1 iw std hL hP] at h1
      rw [find_contacts_cif_reports s cif_path ligand_name r2 iw std hL hP] at h2
      simp only [List.getElem?_map] at h1 h2
      rcases Option.map_eq_some'.mp h1 with ⟨lig, hlig, hrep1⟩
      rcases Option.map_eq_some'.mp h2 with ⟨lig', hlig', hrep2⟩
      have hsame : lig' = lig := by
        have := hlig.symm.trans hlig'
        exact (Option.some.inj this).symm
      subst hsame
      subst hrep1
      subst hrep2
      have hr12 : r1 * r1 ≤ r2 * r2 := mul_le_mul h12.le h12.le h0 (h0.trans h12.le)
      constructor
      · rw [mem_mkReport_iff] at hmem ⊢
        rw [lookupMin_contactsMin_iff] at hmem ⊢
        exact ⟨hmem.1, le_trans hmem.2 hr12⟩
      · intro v' hv'
        rw [mem_mkReport_iff, lookupMin_contactsMin_iff] at hv'
        rw [mem_mkReport_iff, lookupMin_contactsMin_iff] at hmem
        exact (Option.some.inj (hmem.1.symm.trans hv'.1)).symm

/-- Witness for C3 on the §8 scenario: at cutoff 4.5 the report holds only
residue 10 with squared distance 1; at cutoff 11 that same row persists with
the same value (and no other value for that residue), alongside residue 20. -/
theorem contacts_monotone_cutoff_witness :
    (0 : ℚ) ≤ 9/2 ∧ (9/2 : ℚ) < 11 ∧
    ((⟨"ALA", "A", 10, " "⟩ : ResidueKey), (1 : ℚ)) ∈
      (⟨"GSH Chain A 1", [(⟨"ALA", "A", 10, " "⟩, (1 : ℚ)),
        (⟨"GLY", "A", 20, " "⟩, 100)]⟩ : Report).contacts ∧
    (∀ v', ((⟨"ALA", "A", 10, " "⟩ : ResidueKey), v') ∈
      (⟨"GSH Chain A 1", [(⟨"ALA", "A", 10, " "⟩, (1 : ℚ)),
        (⟨"GLY", "A", 20, " "⟩, 100)]⟩ : Report).contacts → v' = 1) :=
  have h := contacts_monotone_cutoff scnS "in.cif" "GSH" false true (9/2) 11
    (by norm_num) (by norm_num) 0
    ⟨"GSH Chain A 1", [(⟨"ALA", "A", 10, " "⟩, (1 : ℚ))]⟩
    ⟨"GSH Chain A 1", [(⟨"ALA", "A", 10, " "⟩, (1 : ℚ)), (⟨"GLY", "A", 20, " "⟩, 100)]⟩
    (by with_unfolding_all decide) (by with_unfolding_all decide)
    ⟨"ALA", "A", 10, " "⟩ 1 (by with_unfolding_all decide)
  ⟨by norm_num, by norm_num, h.1, h.2⟩

/-- A radius query that over-returns: it returns its whole universe whatever
the center and radius.  It is conservative — it never omits an atom within
the radius — but also returns atoms far outside it. -/
def overSearch : Atom → ℚ → List PAtom :=
  fun _ _ => [⟨⟨10, 0, 0⟩, "A", scnR2⟩]

/-- A conservative radius query over a universe of indexed atoms: every
indexed atom within the radius is returned (over-returning is allowed). -/
def conservativeFor (univ : List PAtom) (search : Atom → ℚ → List PAtom) : Prop :=
  ∀ (center : Atom) (radius : ℚ), ∀ pa ∈ univ,
    dist2 pa.atom center ≤ radius * radius → pa ∈ search center radius

/-- C4 is false as stated: the detector never compares the exact distance
against the cutoff, so under a conservative (over-returning) radius query a
contact record can exceed the cutoff.  With a conservative query over one atom
at distance 10 and cutoff 4.5, the minimum-distance map records squared
distance 100, whose square root 10 exceeds 4.5. -/
theorem no_cutoff_recheck_counterexample :
    conservativeFor [⟨⟨10, 0, 0⟩, "A", scnR2⟩] overSearch ∧
    lookupMin (contactsMinWith overSearch (9/2) ("A", scnLig))
      (residue_key "A" scnR2) = some 100 ∧
    ¬(Real.sqrt ((100 : ℚ) : ℝ) ≤ ((9/2 : ℚ) : ℝ)) :=
  ⟨fun _ _ pa hpa _ => hpa,
   by with_unfolding_all decide,
   by
     rw [show ((100 : ℚ) : ℝ) = (10 : ℝ) * 10 by norm_num,
       Real.sqrt_mul_self (by norm_num : (0:ℝ) ≤ 10)]
     norm_num⟩

/-- C4 amended: the detector computes the exact distance only to fold it into
the per-residue minimum and performs no discard against the cutoff; every
contact record is nevertheless within the cutoff because the `NeighborSearch`
radius query returns only atoms within the radius. -/
theorem contact_records_within_cutoff (patoms : List PAtom) (cutoff : ℚ)
    (h0 : 0 ≤ cutoff) (lig : String × Residue) (k : ResidueKey) (v : ℚ)
    (h : lookupMin (contactsMinWith (nsSearch patoms) cutoff lig) k = some v) :
    Real.sqrt (v : ℝ) ≤ (cutoff : ℝ) := by
  have hc := (lookupMin_contactsMin_iff _ _ _ _ _).mp h
  have hle : Real.sqrt (v : ℝ) ≤ Real.sqrt ((cutoff * cutoff : ℚ) : ℝ) :=
    Real.sqrt_le_sqrt (by exact_mod_cast hc.2)
  rwa [show ((cutoff * cutoff : ℚ) : ℝ) = (cutoff : ℝ) * (cutoff : ℝ) by push_cast; ring,
    Real.sqrt_mul_self (by exact_mod_cast h0)] at hle

/-- Witness for the amended C4 on the §8 scenario: the recorded squared
minimum 1 for residue 10 satisfies `√1 ≤ 4.5`. -/
theorem contact_records_within_cutoff_witness :
    (0 : ℚ) ≤ 9/2 ∧
    lookupMin (contactsMinWith (nsSearch (classify scnS "GSH" false true).2) (9/2)
      ("A", scnLig)) ⟨"ALA", "A", 10, " "⟩ = some 1 ∧
    Real.sqrt ((1 : ℚ) : ℝ) ≤ ((9/2 : ℚ) : ℝ) :=
  ⟨by norm_num, by with_unfolding_all decide,
   contact_records_within_cutoff (classify scnS "GSH" false true).2 (9/2) (by norm_num)
     ("A", scnLig) ⟨"ALA", "A", 10, " "⟩ 1 (by with_unfolding_all decide)⟩

/-- C5: if the ligand is absent the pipeline returns no reports plus the
not-found diagnostic; if the ligand is present but no candidate polymer atoms
exist, no reports plus the no-polymer diagnostic; otherwise exactly one report
per ligand instance and no diagnostics — so an empty report collection occurs
exactly in the two not-found conditions, and a found ligand with zero contacts
still yields its report. -/
theorem find_contacts_cif_empty_cases (s : PStructure) (cif_path ligand_name : String)
    (cutoff : ℚ) (iw std : Bool) :
    ((classify s ligand_name iw std).1 = [] →
      find_contacts_cif s cif_path ligand_name cutoff iw std =
        ([], ["❌ Ligand " ++ ligand_name ++ " not found in " ++ cif_path])) ∧
    ((classify s ligand_name iw std).1 ≠ [] → (classify s ligand_name iw std).2 = [] →
      find_contacts_cif s cif_path ligand_name cutoff iw std =
        ([], ["❌ No protein atoms found (polymer not detected)."])) ∧
    ((classify s ligand_name iw std).1 ≠ [] → (classify s ligand_name iw std).2 ≠ [] →
      (find_contacts_cif s cif_path ligand_name cutoff iw std).1 =
        (classify s ligand_name iw std).1.map
          (mkReport (classify s ligand_name iw std).2 cutoff) ∧
      (find_contacts_cif s cif_path ligand_name cutoff iw std).2 = [] ∧
      (find_contacts_cif s cif_path ligand_name cutoff iw std).1.length =
        (classify s ligand_name iw std).1.length) ∧
    ((find_contacts_cif s cif_path ligand_name cutoff iw std).1 = [] ↔
      ((classify s ligand_name iw std).1 = [] ∨ (classify s ligand_name iw std).2 = [])) := by
  refine ⟨?_, ?_, ?_, ?_⟩
  · intro hL
    simp only [find_contacts_cif]
    rw [if_pos (by simp [hL] : ((classify s ligand_name iw std).1).isEmpty = true)]
  · intro hL hP
    simp only [find_contacts_cif]
    rw [if_neg (by simp [hL] : ¬((classify s ligand_name iw std).1).isEmpty = true),
      if_pos (by simp [hP] : ((classify s ligand_name iw std).2).isEmpty = true)]
  · intro hL hP
    rw [find_contacts_cif_reports s cif_path ligand_name cutoff iw std hL hP]
    exact ⟨rfl, rfl, List.length_map _ _⟩
  · constructor
    · intro hnil
      by_contra hcon
      push_neg at hcon
      rw [find_contacts_cif_reports s cif_path ligand_name cutoff iw std hcon.1 hcon.2]
        at hnil
      simp only [List.map_eq_nil_iff] at hnil
      exact hcon.1 hnil
    · exact find_contacts_cif_nil s cif_path ligand_name cutoff iw std

/-- Structure with the ligand present but every protein atom far outside
cutoff 4.5: the pipeline still yields one report, with an empty contact
list. -/
def farRes : Residue := ⟨"ALA", 10, " ", " ", true, true, [⟨100, 0, 0⟩]⟩

def farS : PStructure := ⟨[⟨[⟨"A", [scnLig, farRes]⟩]⟩]⟩

/-- Witness for C5: an absent ligand name on a concrete structure gives no
reports plus the diagnostic, while a present ligand with zero in-range
candidates gives one report with an empty contact list and no diagnostic. -/
theorem find_contacts_cif_empty_cases_witness :
    find_contacts_cif ordS "in.cif" "XYZ" (9/2) false true =
      ([], ["❌ Ligand XYZ not found in in.cif"]) ∧
    find_contacts_cif farS "in.cif" "GSH" (9/2) false true =
      ([⟨"GSH Chain A 1", []⟩], []) :=
  ⟨(find_contacts_cif_empty_cases ordS "in.cif" "XYZ" (9/2) false true).1
      (by with_unfolding_all decide),
   by with_unfolding_all decide⟩

/-- C7 is false as stated: the conditional of `main` (source lines 157–158)
is not a fixed constant — its dead first branch is skipped because
`hasattr(args, "strict-aa")` is always false, and since
`hasattr(args, "strict_aa")` is always true the expression evaluates to
`args.strict_aa`, so the two flag states produce different values. -/
theorem strict_aa_arg_counterexample :
    standard_aa_only_arg true = Except.ok true ∧
    standard_aa_only_arg false = Except.ok false ∧
    standard_aa_only_arg true ≠ standard_aa_only_arg false :=
  ⟨rfl, rfl, fun h => Bool.noConfusion (Except.ok.inj h)⟩

/-- C7 amended: the conditional in `main` always evaluates (without raising)
to the parsed `--strict-aa` flag itself: the broken first branch is dead and
the second condition always holds, so `standard_aa_only` is passed through
from the command line rather than being a fixed constant. -/
theorem strict_aa_arg_passthrough (b : Bool) :
    standard_aa_only_arg b = Except.ok b := rfl

/-- C8: the water-inclusion flag is a no-op — for every structure, path,
ligand name, cutoff and strictness flag, the pipeline's result is identical
with `include_waters = True` and `include_waters = False`. -/
theorem include_waters_noop (s : PStructure) (cif_path ligand_name : String)
    (cutoff : ℚ) (std : Bool) :
    find_contacts_cif s cif_path ligand_name cutoff true std =
      find_contacts_cif s cif_path ligand_name cutoff false std := by
  have hstep : classifyStep ligand_name true std = classifyStep ligand_name false std := by
    funext acc cr
    simp only [classifyStep, ite_self]
  rw [find_contacts_cif, find_contacts_cif, classify, classify, hstep]

/-- C9: minimum distances are accumulated and compared unrounded — every
contact row of a report carries the exact minimum (squared) pair distance —
while the 3-decimal rounding of the Euclidean distance is applied only by the
presentation layer (`contactOut`); flattening reports to CSV rows and
re-parsing them reconstructs exactly the presented
`(resname, chain, resnum, icode, min_distance)` tuples. -/
theorem rounding_only_at_presentation (s : PStructure) (cif_path ligand_name : String)
    (cutoff : ℚ) (iw std : Bool) :
    (∀ rep ∈ (find_contacts_cif s cif_path ligand_name cutoff iw std).1,
      ∀ row ∈ rep.contacts,
        ∃ lig ∈ (classify s ligand_name iw std).1,
          listMinQ (pairDists2 lig (classify s ligand_name iw std).2 row.1) =
              some row.2 ∧
            row.2 ≤ cutoff * cutoff) ∧
    (∀ rep : Report, (reportOut rep).contacts = rep.contacts.map contactOut) ∧
    (∀ row : ResidueKey × ℚ,
      (contactOut row).min_distance = round3 (Real.sqrt ((row.2 : ℚ) : ℝ))) ∧
    (∀ reps : List ReportOut,
      (csvRows reps).map parseRow =
        reps.flatMap fun rep => rep.contacts.map fun c =>
          (c.resname, c.chain, c.resnum, c.icode, c.min_distance)) := by
  refine ⟨?_, fun rep => rfl, fun row => rfl, ?_⟩
  · intro rep hrep row hrow
    by_cases hL : (classify s ligand_name iw std).1 = []
    · rw [find_contacts_cif_nil s cif_path ligand_name cutoff iw std (Or.inl hL)] at hrep
      simp at hrep
    · by_cases hP : (classify s ligand_name iw std).2 = []
      · rw [find_contacts_cif_nil s cif_path ligand_name cutoff iw std (Or.inr hP)] at hrep
        simp at hrep
      · rw [find_contacts_cif_reports s cif_path ligand_name cutoff iw std hL hP] at hrep
        simp only [List.mem_map] at hrep
        obtain ⟨lig, hlig, rfl⟩ := hrep
        refine ⟨lig, hlig, ?_⟩
        have hmem := (mem_mkReport_iff (classify s ligand_name iw std).2 cutoff lig
          row.1 row.2).mp hrow
        exact (lookupMin_contactsMin_iff _ _ _ _ _).mp hmem
  · intro reps
    simp only [csvRows, List.map_flatMap, List.map_map]
    rfl

/-- Witness for C9 on the §8 scenario: the single report row for residue 10
carries the exact unrounded squared minimum 1 within the squared cutoff. -/
theorem rounding_only_at_presentation_witness :
    ∃ lig ∈ (classify scnS "GSH" false true).1,
      listMinQ (pairDists2 lig (classify scnS "GSH" false true).2
          ⟨"ALA", "A", 10, " "⟩) = some 1 ∧
        (1 : ℚ) ≤ (9/2) * (9/2) :=
  (rounding_only_at_presentation scnS "in.cif" "GSH" (9/2) false true).1
    ⟨"GSH Chain A 1", [(⟨"ALA", "A", 10, " "⟩, (1 : ℚ))]⟩
    (by with_unfolding_all decide)
    (⟨"ALA", "A", 10, " "⟩, (1 : ℚ))
    (by with_unfolding_all decide)

/-- C10: every residue whose stripped resname equals the target ligand name is
classified as a ligand instance — the ligand list is exactly the filter of the
traversal by that test — and no candidate polymer atom belongs to such a
residue, regardless of its amino-acid classification: the ligand check
precedes the polymer check. -/
theorem ligand_precedes_polymer (s : PStructure) (ligand_name : String) (iw std : Bool) :
    (classify s ligand_name iw std).1 = (allResidues s).filter (isLigRes ligand_name) ∧
    (∀ cr ∈ allResidues s, pyStrip cr.2.resname = ligand_name →
      cr ∈ (classify s ligand_name iw std).1) ∧
    (∀ pa ∈ (classify s ligand_name iw std).2,
      ¬pyStrip pa.pres.resname = ligand_name) := by
  have hceq := classify_eq s ligand_name iw std
  refine ⟨by rw [hceq], ?_, ?_⟩
  · intro cr hcr hname
    rw [hceq]
    exact List.mem_filter.mpr ⟨hcr, by simp [isLigRes, hname]⟩
  · intro pa hpa
    rw [mem_protein_atoms_iff] at hpa
    obtain ⟨cr, hcr, hprot, hpaof⟩ := hpa
    simp only [protAtomsOf, List.mem_map] at hpaof
    obtain ⟨a, ha, rfl⟩ := hpaof
    simp only [isProtRes, Bool.and_eq_true, Bool.not_eq_true',
      decide_eq_false_iff_not] at hprot
    exact hprot.1.1

/-- A residue that matches the ligand name *and* is classified as an
amino acid by both `is_aa` modes. -/
def dualRes : Residue := ⟨"GSH", 5, " ", " ", true, true, [⟨0, 0, 1⟩]⟩

def dualS : PStructure := ⟨[⟨[⟨"A", [dualRes, ordR1]⟩]⟩]⟩

/-- Witness for C10: the residue matching the ligand name that is also an
amino acid is classified as a ligand instance, and no candidate polymer atom
of that structure belongs to a ligand-named residue. -/
theorem ligand_precedes_polymer_witness :
    ("A", dualRes) ∈ (classify dualS "GSH" false true).1 ∧
    ∀ pa ∈ (classify dualS "GSH" false true).2, ¬pyStrip pa.pres.resname = "GSH" :=
  ⟨(ligand_precedes_polymer dualS "GSH" false true).2.1 ("A", dualRes)
      (by with_unfolding_all decide) (by with_unfolding_all decide),
   (ligand_precedes_polymer dualS "GSH" false true).2.2⟩

end ContactsCif
